import Mathlib

/-!
Verification of the IntersectionFinder scan algorithm from src/main.py.

The embedding works over exact rationals.  A function that may raise at
some inputs is modelled as a value of type RFun, returning none where the
underlying Python callable raises.  The scipy brentq bracketing solver and
the spec-described local solver are external numerical routines and enter
the development as explicit parameters (BrentQ, LocalSolver); theorems
that depend on their contracts take those contracts as hypotheses.
-/

namespace Intersection

/-- A real-valued function of one variable that may fail to evaluate at
some points; none models a raised exception. -/
abbrev RFun := ℚ → Option ℚ

/-- Signature of the brentq bracketing solver: it receives the function,
the two bracket endpoints and the xtol tolerance, and returns a root
candidate or none when it fails to converge (any raised exception in the
Python call is absorbed into none, since the caller catches it). -/
abbrev BrentQ := (ℚ → Option ℚ) → ℚ → ℚ → ℚ → Option ℚ

/-- IntersectionFinder._equation (src/main.py lines 19-29): the difference
func1 x - func2 x, failing when either underlying function fails. -/
def _equation (f1 f2 : RFun) (x : ℚ) : Option ℚ :=
  match f1 x, f2 x with
  | some a, some b => some (a - b)
  | _, _ => none

/-- np.linspace xmin xmax n (src/main.py line 42): n evenly spaced points
from a to b inclusive.  For n = 0 the list is empty and for n = 1 the
divisor vanishes but the single point is still a, matching numpy. -/
def linspace (a b : ℚ) (n : ℕ) : List ℚ :=
  (List.range n).map (fun i : ℕ => a + (i : ℚ) * (b - a) / ((n : ℚ) - 1))

/-- f_values[i] (src/main.py lines 46-52): the difference function
evaluated at grid point i, with none playing the role of np.nan for
points where evaluation raised. -/
def gridVal (f1 f2 : RFun) (grid : List ℚ) (i : ℕ) : Option ℚ :=
  match grid[i]? with
  | some x => _equation f1 f2 x
  | none => none

/-- Lines 72-75 of src/main.py: the uniqueness check against already
accepted roots followed by the append.  The y value is computed by calling
func1 directly (line 74), which sits outside any try block, so a failure
of func1 at the accepted root escapes the whole call: this is the error
case, carrying the offending x. -/
def recordRoot (f1 : RFun) (tol : ℚ) (acc : List (ℚ × ℚ)) (xr : ℚ) :
    Except ℚ (List (ℚ × ℚ)) :=
  if ∃ p ∈ acc, |xr - p.1| < tol then .ok acc
  else
    match f1 xr with
    | some y => .ok (acc ++ [(xr, y)])
    | none => .error xr

/-- One iteration of the adjacent-pair loop (src/main.py lines 56-75):
skip when either value is nan; on an exact zero take the grid point itself
as the root; on a strict sign change call brentq and skip the interval if
it fails; otherwise continue. -/
def scanStep (f1 f2 : RFun) (bq : BrentQ) (tol : ℚ) (grid : List ℚ)
    (acc : List (ℚ × ℚ)) (i : ℕ) : Except ℚ (List (ℚ × ℚ)) :=
  match gridVal f1 f2 grid i, gridVal f1 f2 grid (i + 1) with
  | some vi, some vi1 =>
    if vi = 0 then recordRoot f1 tol acc (grid.getD i 0)
    else if vi * vi1 < 0 then
      match bq (_equation f1 f2) (grid.getD i 0) (grid.getD (i + 1) 0) tol with
      | some xr => recordRoot f1 tol acc xr
      | none => .ok acc
    else .ok acc
  | _, _ => .ok acc

/-- Error propagation through the loop: once an exception escapes, the
remaining iterations do not run. -/
def stepE (f1 f2 : RFun) (bq : BrentQ) (tol : ℚ) (grid : List ℚ)
    (st : Except ℚ (List (ℚ × ℚ))) (i : ℕ) : Except ℚ (List (ℚ × ℚ)) :=
  match st with
  | .error e => .error e
  | .ok acc => scanStep f1 f2 bq tol grid acc i

/-- The adjacent-pair loop run over indices 0, ..., k-1, starting from an
empty list of intersections. -/
def scanLoop (f1 f2 : RFun) (bq : BrentQ) (tol : ℚ) (grid : List ℚ) (k : ℕ) :
    Except ℚ (List (ℚ × ℚ)) :=
  (List.range k).foldl (stepE f1 f2 bq tol grid) (.ok [])

/-- IntersectionFinder.find_intersections_by_scan (src/main.py lines
31-77): build the grid, evaluate the difference on it, and run the
adjacent-pair loop over the len(grid) - 1 consecutive pairs. -/
def find_intersections_by_scan (f1 f2 : RFun) (bq : BrentQ) (domain : ℚ × ℚ)
    (num_points : ℕ) (tol : ℚ) : Except ℚ (List (ℚ × ℚ)) :=
  let grid := linspace domain.1 domain.2 num_points
  scanLoop f1 f2 bq tol grid (grid.length - 1)

/-- Signature of a derivative-free local solver: function, starting guess
and tolerance in, optional root candidate out. -/
abbrev LocalSolver := (ℚ → Option ℚ) → ℚ → ℚ → Option ℚ

/-- Modelled from the spec: the guess-and-converge strategy
(find_intersections, spec section 4.3) is absent from src/main.py, which
only contains the scan strategy.  Per the spec: run the local solver on
the difference function from the given guess; on solver failure the guess
contributes nothing; on success recompute both functions at the candidate
and accept only when the residual is below tol, then deduplicate against
previously accepted roots with the shared tol rule. -/
def convergeStep (f1 f2 : RFun) (solver : LocalSolver) (tol : ℚ)
    (acc : List (ℚ × ℚ)) (g : ℚ) : List (ℚ × ℚ) :=
  match solver (_equation f1 f2) g tol with
  | none => acc
  | some x =>
    match f1 x, f2 x with
    | some y1, some y2 =>
      if |y1 - y2| < tol then
        if ∃ p ∈ acc, |x - p.1| < tol then acc
        else acc ++ [(x, y1)]
      else acc
    | _, _ => acc

/-- Modelled from the spec: processing of the whole guess list, in order,
each guess handled independently by convergeStep. -/
def converge (f1 f2 : RFun) (solver : LocalSolver) (guesses : List ℚ)
    (tol : ℚ) : List (ℚ × ℚ) :=
  guesses.foldl (convergeStep f1 f2 solver tol) []

/-! ### Basic lemmas about the embedding -/

lemma linspace_length (a b : ℚ) (n : ℕ) : (linspace a b n).length = n := by
  rw [linspace, List.length_map, List.length_range]

lemma linspace_getD {a b : ℚ} {n i : ℕ} (hi : i < n) :
    (linspace a b n).getD i 0 = a + (i : ℚ) * (b - a) / ((n : ℚ) - 1) := by
  rw [linspace, List.getD_eq_getElem?_getD, List.getElem?_map,
    List.getElem?_range hi]
  rfl

lemma _equation_some {f1 f2 : RFun} {x v : ℚ}
    (h : _equation f1 f2 x = some v) :
    ∃ y1 y2, f1 x = some y1 ∧ f2 x = some y2 ∧ v = y1 - y2 := by
  unfold _equation at h
  rcases h1 : f1 x with _ | y1 <;> rcases h2 : f2 x with _ | y2 <;>
    rw [h1, h2] at h <;> simp_all

lemma gridVal_some {f1 f2 : RFun} {grid : List ℚ} {i : ℕ} {v : ℚ}
    (h : gridVal f1 f2 grid i = some v) :
    i < grid.length ∧ _equation f1 f2 (grid.getD i 0) = some v := by
  unfold gridVal at h
  rcases hg : grid[i]? with _ | x <;> rw [hg] at h
  · exact absurd h (by simp)
  · have hlen : i < grid.length := by
      by_contra hlt
      rw [List.getElem?_eq_none (by omega)] at hg
      exact Option.noConfusion hg
    refine ⟨hlen, ?_⟩
    rw [List.getD_eq_getElem?_getD, hg]
    exact h

lemma recordRoot_ok_cases {f1 : RFun} {tol : ℚ} {acc l : List (ℚ × ℚ)}
    {xr : ℚ} (h : recordRoot f1 tol acc xr = .ok l) :
    l = acc ∨
      ∃ y, l = acc ++ [(xr, y)] ∧ f1 xr = some y ∧
        ∀ p ∈ acc, tol ≤ |xr - p.1| := by
  unfold recordRoot at h
  by_cases hdup : ∃ p ∈ acc, |xr - p.1| < tol
  · rw [if_pos hdup] at h
    exact Or.inl (Except.ok.inj h).symm
  · rw [if_neg hdup] at h
    rcases hf : f1 xr with _ | y <;> rw [hf] at h
    · exact absurd h (by simp)
    · push_neg at hdup
      exact Or.inr ⟨y, (Except.ok.inj h).symm, rfl, hdup⟩

lemma recordRoot_ok_of_some {f1 : RFun} {tol : ℚ} {acc : List (ℚ × ℚ)}
    {xr y : ℚ} (hf : f1 xr = some y) :
    ∃ l, recordRoot f1 tol acc xr = .ok l := by
  unfold recordRoot
  by_cases hdup : ∃ p ∈ acc, |xr - p.1| < tol
  · exact ⟨acc, by rw [if_pos hdup]⟩
  · exact ⟨acc ++ [(xr, y)], by rw [if_neg hdup, hf]⟩

lemma scanStep_ok_cases {f1 f2 : RFun} {bq : BrentQ} {tol : ℚ}
    {grid : List ℚ} {acc l : List (ℚ × ℚ)} {i : ℕ}
    (h : scanStep f1 f2 bq tol grid acc i = .ok l) :
    l = acc ∨
      ∃ x y, l = acc ++ [(x, y)] ∧ f1 x = some y ∧
        (∀ p ∈ acc, tol ≤ |x - p.1|) ∧
        (i + 1 < grid.length) ∧
        ((gridVal f1 f2 grid i = some 0 ∧ x = grid.getD i 0) ∨
          ∃ vi vi1, gridVal f1 f2 grid i = some vi ∧
            gridVal f1 f2 grid (i + 1) = some vi1 ∧ vi ≠ 0 ∧ vi * vi1 < 0 ∧
            bq (_equation f1 f2) (grid.getD i 0) (grid.getD (i + 1) 0) tol
              = some x) := by
  unfold scanStep at h
  split at h
  · rename_i vi vi1 hvi hvi1
    have hlen : i + 1 < grid.length := (gridVal_some hvi1).1
    split at h
    · rename_i hz
      rcases recordRoot_ok_cases h with hl | ⟨y, hl, hf, hsep⟩
      · exact Or.inl hl
      · exact Or.inr ⟨grid.getD i 0, y, hl, hf, hsep, hlen,
          Or.inl ⟨by rw [hvi, hz], rfl⟩⟩
    · rename_i hz
      split at h
      · rename_i hs
        split at h
        · rename_i xr hbq
          rcases recordRoot_ok_cases h with hl | ⟨y, hl, hf, hsep⟩
          · exact Or.inl hl
          · exact Or.inr ⟨xr, y, hl, hf, hsep, hlen,
              Or.inr ⟨vi, vi1, hvi, hvi1, hz, hs, hbq⟩⟩
        · exact Or.inl (Except.ok.inj h).symm
      · exact Or.inl (Except.ok.inj h).symm
  · exact Or.inl (Except.ok.inj h).symm

lemma scanLoop_succ (f1 f2 : RFun) (bq : BrentQ) (tol : ℚ) (grid : List ℚ)
    (k : ℕ) :
    scanLoop f1 f2 bq tol grid (k + 1) =
      stepE f1 f2 bq tol grid (scanLoop f1 f2 bq tol grid k) k := by
  unfold scanLoop
  rw [List.range_succ, List.foldl_append, List.foldl_cons, List.foldl_nil]

lemma scanLoop_inv {f1 f2 : RFun} {bq : BrentQ} {tol : ℚ} {grid : List ℚ}
    (K : ℕ) (P : ℕ → List (ℚ × ℚ) → Prop) (h0 : P 0 [])
    (hstep : ∀ k acc l, k < K → P k acc →
      scanStep f1 f2 bq tol grid acc k = .ok l → P (k + 1) l) :
    ∀ k, k ≤ K → ∀ l, scanLoop f1 f2 bq tol grid k = .ok l → P k l := by
  intro k
  induction k with
  | zero =>
    intro _ l hl
    have : Except.ok (ε := ℚ) [] = Except.ok l := hl
    rw [← Except.ok.inj this]
    exact h0
  | succ k ih =>
    intro hk l hl
    rw [scanLoop_succ] at hl
    rcases hsk : scanLoop f1 f2 bq tol grid k with e | acc <;>
      rw [hsk] at hl
    · exact absurd hl (by simp [stepE])
    · have hstep' : scanStep f1 f2 bq tol grid acc k = .ok l := hl
      exact hstep k acc l (by omega) (ih (by omega) acc hsk) hstep'

lemma linspace_getD_mono {a b : ℚ} (hab : a ≤ b) {n i j : ℕ}
    (hij : i ≤ j) (hj : j < n) :
    (linspace a b n).getD i 0 ≤ (linspace a b n).getD j 0 := by
  rw [linspace_getD (lt_of_le_of_lt hij hj), linspace_getD hj,
    mul_div_assoc, mul_div_assoc]
  have hn : (1 : ℚ) ≤ (n : ℚ) := by
    exact_mod_cast Nat.one_le_iff_ne_zero.mpr (by omega)
  have hc : 0 ≤ (b - a) / ((n : ℚ) - 1) := div_nonneg (by linarith) (by linarith)
  have hij' : (i : ℚ) ≤ (j : ℚ) := by exact_mod_cast hij
  nlinarith

lemma linspace_self_getD {a : ℚ} {n i : ℕ} (hi : i < n) :
    (linspace a a n).getD i 0 = a := by
  rw [linspace_getD hi]
  simp

lemma scanStep_ok_of_bq {f1 f2 : RFun} {bq : BrentQ} {tol : ℚ}
    {grid : List ℚ}
    (hbq : ∀ a b x, bq (_equation f1 f2) a b tol = some x →
      _equation f1 f2 x ≠ none)
    (acc : List (ℚ × ℚ)) (i : ℕ) :
    ∃ l, scanStep f1 f2 bq tol grid acc i = .ok l := by
  unfold scanStep
  split
  · rename_i vi vi1 hvi hvi1
    split
    · obtain ⟨_, heq⟩ := gridVal_some hvi
      obtain ⟨y1, y2, hf1, _, _⟩ := _equation_some heq
      exact recordRoot_ok_of_some hf1
    · split
      · rcases hbqv : bq (_equation f1 f2) (grid.getD i 0)
            (grid.getD (i + 1) 0) tol with _ | xr
        · exact ⟨acc, rfl⟩
        · have hne := hbq _ _ _ hbqv
          rcases hval : _equation f1 f2 xr with _ | v
          · exact absurd hval hne
          obtain ⟨y1, y2, hf1, _, _⟩ := _equation_some hval
          exact recordRoot_ok_of_some hf1
      · exact ⟨acc, rfl⟩
  · exact ⟨acc, rfl⟩

lemma scanLoop_ok_of_bq {f1 f2 : RFun} {bq : BrentQ} {tol : ℚ}
    {grid : List ℚ}
    (hbq : ∀ a b x, bq (_equation f1 f2) a b tol = some x →
      _equation f1 f2 x ≠ none) :
    ∀ k, ∃ l, scanLoop f1 f2 bq tol grid k = .ok l := by
  intro k
  induction k with
  | zero => exact ⟨[], rfl⟩
  | succ k ih =>
    obtain ⟨l, hl⟩ := ih
    obtain ⟨l', hl'⟩ := scanStep_ok_of_bq hbq l k
    refine ⟨l', ?_⟩
    rw [scanLoop_succ, hl]
    exact hl'

lemma scan_ok_inv {f1 f2 : RFun} {bq : BrentQ} {d : ℚ × ℚ} {n : ℕ} {tol : ℚ}
    {l : List (ℚ × ℚ)} (P : List (ℚ × ℚ) → Prop) (h0 : P [])
    (hstep : ∀ k acc l', P acc →
      scanStep f1 f2 bq tol (linspace d.1 d.2 n) acc k = .ok l' → P l')
    (h : find_intersections_by_scan f1 f2 bq d n tol = .ok l) : P l := by
  simp only [find_intersections_by_scan] at h
  exact scanLoop_inv ((linspace d.1 d.2 n).length - 1) (fun _ acc => P acc) h0
    (fun k acc l' _ hp hs => hstep k acc l' hp hs) _ le_rfl l h

lemma scanStep_skip_of_no_cross {f1 f2 : RFun} {bq : BrentQ} {tol : ℚ}
    {grid : List ℚ} {acc : List (ℚ × ℚ)} {i : ℕ} {vi vi1 : ℚ}
    (h0 : gridVal f1 f2 grid i = some vi)
    (h1 : gridVal f1 f2 grid (i + 1) = some vi1)
    (hnz : vi ≠ 0) (hns : ¬ vi * vi1 < 0) :
    scanStep f1 f2 bq tol grid acc i = .ok acc := by
  simp only [scanStep, h0, h1, if_neg hnz, if_neg hns]

lemma scanStep_skip_of_undef {f1 f2 : RFun} {bq : BrentQ} {tol : ℚ}
    {grid : List ℚ} {acc : List (ℚ × ℚ)} {i : ℕ}
    (h : gridVal f1 f2 grid i = none ∨ gridVal f1 f2 grid (i + 1) = none) :
    scanStep f1 f2 bq tol grid acc i = .ok acc := by
  rcases h with h | h
  · simp only [scanStep, h]
  · rcases hvi : gridVal f1 f2 grid i with _ | vi <;>
      simp only [scanStep, hvi, h]

lemma linspace_self_getElem? {a : ℚ} {n i : ℕ} (hi : i < n) :
    (linspace a a n)[i]? = some a := by
  have hlen : i < (linspace a a n).length := by rw [linspace_length]; exact hi
  rw [List.getElem?_eq_getElem hlen]
  have h := @linspace_self_getD a n i hi
  rw [List.getD_eq_getElem?_getD, List.getElem?_eq_getElem hlen] at h
  simp only [Option.getD_some] at h
  rw [h]

lemma gridVal_linspace_self {f1 f2 : RFun} {a : ℚ} {n i : ℕ} (hi : i < n) :
    gridVal f1 f2 (linspace a a n) i = _equation f1 f2 a := by
  unfold gridVal
  rw [linspace_self_getElem? hi]

/-! ### Claim theorems -/

/-- Claim C2: for every call to find_intersections_by_scan, no two
distinct pairs in the returned list have their x coordinates within tol of
each other: the uniqueness check of line 73 makes every accepted root at
least tol away from all previously accepted ones. -/
theorem scan_dedup_invariant (f1 f2 : RFun) (bq : BrentQ) (d : ℚ × ℚ)
    (n : ℕ) (tol : ℚ) (l : List (ℚ × ℚ))
    (h : find_intersections_by_scan f1 f2 bq d n tol = .ok l) :
    l.Pairwise (fun p q => ¬ |p.1 - q.1| < tol) := by
  refine scan_ok_inv _ List.Pairwise.nil ?_ h
  intro k acc l' hp hs
  rcases scanStep_ok_cases hs with hl | ⟨x, y, hl, _, hsep, _, _⟩
  · exact hl ▸ hp
  · subst hl
    rw [List.pairwise_append]
    refine ⟨hp, List.pairwise_singleton _ _, ?_⟩
    intro p hpmem q hq
    rw [List.mem_singleton] at hq
    subst hq
    rw [abs_sub_comm]
    exact not_lt.mpr (hsep p hpmem)

/-- Concrete run of scan_dedup_invariant: the line f1 x = x against the
constant f2 x = 1 on the grid of 3 points over [0, 2]. -/
theorem scan_dedup_invariant_witness :
    find_intersections_by_scan (fun x => some x) (fun _ => some 1)
        (fun _ _ _ _ => none) (0, 2) 3 (1/2) = .ok [(1, 1)] ∧
    [((1 : ℚ), (1 : ℚ))].Pairwise (fun p q => ¬ |p.1 - q.1| < 1/2) := by
  have hr3 : List.range 3 = [0, 1, 2] := rfl
  have hr2 : List.range 2 = [0, 1] := rfl
  have hg : linspace 0 2 3 = [0, 1, 2] := by
    norm_num [linspace, hr3]
  have hsc : find_intersections_by_scan (fun x => some x) (fun _ => some 1)
      (fun _ _ _ _ => none) (0, 2) 3 (1/2) = .ok [(1, 1)] := by
    simp only [find_intersections_by_scan, hg]
    norm_num [scanLoop, hr2, stepE, scanStep, gridVal, recordRoot, _equation,
      List.getD]
  exact ⟨hsc, scan_dedup_invariant (fun x => some x) (fun _ => some 1)
    (fun _ _ _ _ => none) (0, 2) 3 (1/2) [(1, 1)] hsc⟩

/-- Claim C6: when the bracketing solver fails on a sign-changing interval
(lines 62-68), that interval is skipped with the accumulated results
untouched and no error, so the loop proceeds to the next interval; and a
solver that always fails still leaves the whole scan returning an ok
result, never propagating the failure to the caller. -/
theorem scan_solver_failure_skipped (f1 f2 : RFun) (bq : BrentQ) (tol : ℚ)
    (grid : List ℚ) (acc : List (ℚ × ℚ)) (i : ℕ) (vi vi1 : ℚ)
    (h0 : gridVal f1 f2 grid i = some vi)
    (h1 : gridVal f1 f2 grid (i + 1) = some vi1)
    (hnz : vi ≠ 0) (hsign : vi * vi1 < 0)
    (hfail : bq (_equation f1 f2) (grid.getD i 0) (grid.getD (i + 1) 0) tol
      = none) :
    scanStep f1 f2 bq tol grid acc i = .ok acc ∧
    ((∀ g a b t, bq g a b t = none) →
      ∀ d n, ∃ l, find_intersections_by_scan f1 f2 bq d n tol = .ok l) := by
  constructor
  · simp only [scanStep, h0, h1, if_neg hnz, if_pos hsign, hfail]
  · intro hall d n
    simp only [find_intersections_by_scan]
    exact scanLoop_ok_of_bq
      (fun a b x hx => by rw [hall] at hx; exact Option.noConfusion hx) _

/-- Concrete run of scan_solver_failure_skipped: a sign change of the
identity line on the grid with points -1 and 1, with a solver that always
fails; the step keeps the empty result list. -/
theorem scan_solver_failure_skipped_witness :
    (-1 - 0 : ℚ) * (1 - 0) < 0 ∧
    scanStep (fun x => some x) (fun _ => some 0) (fun _ _ _ _ => none) 1
      [(-1 : ℚ), 1] [] 0 = .ok [] :=
  ⟨by norm_num,
    (scan_solver_failure_skipped (fun x => some x) (fun _ => some 0)
      (fun _ _ _ _ => none) 1 [(-1 : ℚ), 1] [] 0 (-1 - 0) (1 - 0) rfl rfl
      (by norm_num) (by norm_num) rfl).1⟩

/-- Claim C8 counterexample: num_points = 1 is below 2, yet the call
returns an ordinary ok result (the empty list) instead of failing with
any parameter error. -/
theorem scan_num_points_counterexample :
    1 < 2 ∧
    find_intersections_by_scan (fun x => some x) (fun _ => some 1)
      (fun _ _ _ _ => none) (0, 1) 1 1 = .ok [] :=
  ⟨by decide, by rfl⟩

/-- Claim C8 amended: find_intersections_by_scan performs no validation of
num_points; with num_points below 2 the grid has at most one point, the
adjacent-pair loop body never runs, and the call returns ok [] rather than
failing. -/
theorem scan_small_num_points_ok (f1 f2 : RFun) (bq : BrentQ) (d : ℚ × ℚ)
    (n : ℕ) (tol : ℚ) (hn : n ≤ 1) :
    find_intersections_by_scan f1 f2 bq d n tol = .ok [] := by
  simp only [find_intersections_by_scan]
  have hlen : (linspace d.1 d.2 n).length - 1 = 0 := by
    rw [linspace_length]; omega
  rw [hlen]
  rfl

/-- Concrete run of scan_small_num_points_ok at num_points = 1. -/
theorem scan_small_num_points_ok_witness :
    (1 : ℕ) ≤ 1 ∧
    find_intersections_by_scan (fun x => some x) (fun _ => some 0)
      (fun _ _ _ _ => none) (3, 7) 1 (1/2) = .ok [] :=
  ⟨le_rfl, scan_small_num_points_ok (fun x => some x) (fun _ => some 0)
    (fun _ _ _ _ => none) (3, 7) 1 (1/2) le_rfl⟩

/-- Claim C4 counterexample: with domain (1, 0), where xmin exceeds xmax,
the call does not fail at all: it scans the decreasing grid [1, 0] and
returns the ordinary result [(1, 1)], finding the exact zero of the
difference x - 1 at the grid point 1.  No domain validation exists in
find_intersections_by_scan (the CLI layer in main validates, the library
function does not). -/
theorem scan_invalid_domain_counterexample :
    (0 : ℚ) ≤ 1 ∧
    find_intersections_by_scan (fun x => some x) (fun _ => some 1)
      (fun _ _ _ _ => none) (1, 0) 2 1 = .ok [(1, 1)] := by
  have hr2 : List.range 2 = [0, 1] := rfl
  have hr1 : List.range 1 = [0] := rfl
  have hg : linspace 1 0 2 = [1, 0] := by norm_num [linspace, hr2]
  constructor
  · norm_num
  · simp only [find_intersections_by_scan, hg]
    norm_num [scanLoop, hr1, stepE, scanStep, gridVal, recordRoot, _equation,
      List.getD]

/-- Claim C4 amended: find_intersections_by_scan performs no domain
validation and raises nothing for xmin ≥ xmax.  In particular for a fully
collapsed domain (a, a) every grid point equals a, and whenever the
difference at a is not an exact zero the call returns ok [] normally. -/
theorem scan_degenerate_domain_ok (f1 f2 : RFun) (bq : BrentQ) (a : ℚ)
    (n : ℕ) (tol : ℚ) (h : _equation f1 f2 a ≠ some 0) :
    find_intersections_by_scan f1 f2 bq (a, a) n tol = .ok [] := by
  simp only [find_intersections_by_scan]
  show scanLoop f1 f2 bq tol (linspace a a n)
    ((linspace a a n).length - 1) = .ok []
  rw [linspace_length]
  suffices hs : ∀ k, k ≤ n - 1 →
      scanLoop f1 f2 bq tol (linspace a a n) k = .ok [] by
    exact hs (n - 1) le_rfl
  intro k
  induction k with
  | zero => intro _; rfl
  | succ k ih =>
    intro hk
    rw [scanLoop_succ, ih (by omega)]
    show scanStep f1 f2 bq tol (linspace a a n) [] k = .ok []
    have hk1 : k + 1 < n := by omega
    rcases hv : _equation f1 f2 a with _ | v
    · exact scanStep_skip_of_undef
        (Or.inl (by rw [gridVal_linspace_self (by omega)]; exact hv))
    · refine @scanStep_skip_of_no_cross f1 f2 bq tol (linspace a a n) [] k
        v v ?_ ?_ ?_ ?_
      · rw [gridVal_linspace_self (by omega), hv]
      · rw [gridVal_linspace_self hk1, hv]
      · intro h0
        exact h (by rw [hv, h0])
      · exact not_lt.mpr (mul_self_nonneg v)

/-- Concrete run of scan_degenerate_domain_ok: constant functions 1 and 0
over the collapsed domain (5, 5). -/
theorem scan_degenerate_domain_ok_witness :
    _equation (fun _ => some 1) (fun _ => some 0) 5 ≠ some 0 ∧
    find_intersections_by_scan (fun _ => some 1) (fun _ => some 0)
      (fun _ _ _ _ => none) (5, 5) 4 1 = .ok [] := by
  have hne : _equation (fun _ => some 1) (fun _ => some 0) 5 ≠ some 0 := by
    norm_num [_equation]
  exact ⟨hne, scan_degenerate_domain_ok (fun _ => some 1) (fun _ => some 0)
    (fun _ _ _ _ => none) 5 4 1 hne⟩

/-- Claim C5: an evaluation failure at a grid point is recorded as an
undefined value (the nan of lines 46-52), any adjacent pair with an
undefined endpoint is skipped with the accumulated results untouched, and
— provided the bracketing solver only returns points where it could
evaluate the difference, as a real bracketing solver does — the whole call
still returns an ok result list instead of propagating the failure. -/
theorem scan_undefined_points_resilient (f1 f2 : RFun) (bq : BrentQ)
    (tol : ℚ) (grid : List ℚ) (d : ℚ × ℚ) (n : ℕ)
    (hbq : ∀ a b x, bq (_equation f1 f2) a b tol = some x →
      _equation f1 f2 x ≠ none) :
    (∀ i x, grid[i]? = some x → _equation f1 f2 x = none →
      gridVal f1 f2 grid i = none) ∧
    (∀ acc i, gridVal f1 f2 grid i = none ∨
      gridVal f1 f2 grid (i + 1) = none →
      scanStep f1 f2 bq tol grid acc i = .ok acc) ∧
    (∃ l, find_intersections_by_scan f1 f2 bq d n tol = .ok l) := by
  refine ⟨?_, ?_, ?_⟩
  · intro i x hx heq
    unfold gridVal
    rw [hx]
    exact heq
  · intro acc i h
    exact scanStep_skip_of_undef h
  · simp only [find_intersections_by_scan]
    exact scanLoop_ok_of_bq hbq _

/-- Concrete run of scan_undefined_points_resilient: a function undefined
exactly at x = 1, scanned over [0, 1] with 2 points. -/
theorem scan_undefined_points_resilient_witness :
    _equation (fun x => if x = 1 then none else some x) (fun _ => some 0) 1
      = none ∧
    (∃ l, find_intersections_by_scan
      (fun x => if x = 1 then none else some x) (fun _ => some 0)
      (fun _ _ _ _ => none) (0, 1) 2 1 = .ok l) := by
  have h := scan_undefined_points_resilient
    (fun x => if x = 1 then none else some x) (fun _ => some 0)
    (fun _ _ _ _ => none) 1 [0, 1] (0, 1) 2
    (fun a b x hx => Option.noConfusion hx)
  refine ⟨?_, h.2.2⟩
  norm_num [_equation]

/-- Claim C1 counterexample: the scan performs no residual verification on
solver results.  Here the difference is 10x on the bracket [-1, 1] (true
root 0) with tol = 1; the modelled solver returns 3/4, which is a
legitimate brentq outcome since it lies inside the bracket and within
xtol = tol = 1 of the true root.  The returned pair (3/4, 15/2) has
residual 15/2, far above tol. -/
theorem scan_residual_counterexample :
    find_intersections_by_scan (fun x => some (10 * x)) (fun _ => some 0)
      (fun _ _ _ _ => some (3/4)) (-1, 1) 2 1 = .ok [(3/4, 15/2)] ∧
    ¬ |(10 * (3/4 : ℚ)) - 0| < 1 := by
  have hr2 : List.range 2 = [0, 1] := rfl
  have hr1 : List.range 1 = [0] := rfl
  have hg : linspace (-1) 1 2 = [-1, 1] := by norm_num [linspace, hr2]
  constructor
  · simp only [find_intersections_by_scan, hg]
    norm_num [scanLoop, hr1, stepE, scanStep, gridVal, recordRoot, _equation,
      List.getD]
  · have habs : |(10 * (3/4 : ℚ)) - 0| = 15/2 := by
      rw [abs_of_nonneg] <;> norm_num
    rw [habs]
    norm_num

/-- Claim C1 amended: every pair (x, y) in an ok result has y = f1 x, and
x comes from one of exactly two sources: a grid point where the difference
function is exactly zero (residual 0, within any positive tol), or a value
returned by the bracketing solver on a strictly sign-changing adjacent
interval.  The code performs no residual check on solver results, so
|f1 x - f2 x| < tol is only guaranteed for the direct-hit case. -/
theorem scan_root_provenance (f1 f2 : RFun) (bq : BrentQ) (d : ℚ × ℚ)
    (n : ℕ) (tol : ℚ) (l : List (ℚ × ℚ))
    (h : find_intersections_by_scan f1 f2 bq d n tol = .ok l) :
    ∀ p ∈ l, f1 p.1 = some p.2 ∧
      (_equation f1 f2 p.1 = some 0 ∨
        ∃ i, i + 1 < (linspace d.1 d.2 n).length ∧
          bq (_equation f1 f2) ((linspace d.1 d.2 n).getD i 0)
            ((linspace d.1 d.2 n).getD (i + 1) 0) tol = some p.1) := by
  refine scan_ok_inv
    (fun acc => ∀ p ∈ acc, f1 p.1 = some p.2 ∧
      (_equation f1 f2 p.1 = some 0 ∨
        ∃ i, i + 1 < (linspace d.1 d.2 n).length ∧
          bq (_equation f1 f2) ((linspace d.1 d.2 n).getD i 0)
            ((linspace d.1 d.2 n).getD (i + 1) 0) tol = some p.1))
    (by simp) ?_ h
  intro k acc l' hp hs
  rcases scanStep_ok_cases hs with hl | ⟨x, y, hl, hf, _, hlen, hcase⟩
  · exact hl ▸ hp
  · subst hl
    intro p hpm
    rcases List.mem_append.mp hpm with hin | hnew
    · exact hp p hin
    · rw [List.mem_singleton] at hnew
      subst hnew
      refine ⟨hf, ?_⟩
      rcases hcase with ⟨hz, hx⟩ | ⟨vi, vi1, hvi, hvi1, hnz, hsg, hbq⟩
      · left
        rw [hx]
        exact (gridVal_some hz).2
      · right
        exact ⟨k, hlen, hbq⟩

/-- Concrete run of scan_root_provenance: the line x against the constant
2 over [0, 4] with 3 points; the single returned root is the direct hit at
the middle grid point 2. -/
theorem scan_root_provenance_witness :
    find_intersections_by_scan (fun x => some x) (fun _ => some 2)
        (fun _ _ _ _ => none) (0, 4) 3 (1/2) = .ok [(2, 2)] ∧
    ∀ p ∈ [((2 : ℚ), (2 : ℚ))], (fun x : ℚ => some x) p.1 = some p.2 ∧
      (_equation (fun x => some x) (fun _ => some 2) p.1 = some 0 ∨
        ∃ i, i + 1 < (linspace (0, 4).1 (0, 4).2 3).length ∧
          (fun _ _ _ _ => (none : Option ℚ)) (_equation (fun x => some x)
              (fun _ => some 2)) ((linspace (0, 4).1 (0, 4).2 3).getD i 0)
            ((linspace (0, 4).1 (0, 4).2 3).getD (i + 1) 0) (1/2)
            = some p.1) := by
  have hr3 : List.range 3 = [0, 1, 2] := rfl
  have hr2 : List.range 2 = [0, 1] := rfl
  have hg : linspace 0 4 3 = [0, 2, 4] := by
    norm_num [linspace, hr3]
  have hsc : find_intersections_by_scan (fun x => some x) (fun _ => some 2)
      (fun _ _ _ _ => none) (0, 4) 3 (1/2) = .ok [(2, 2)] := by
    simp only [find_intersections_by_scan, hg]
    norm_num [scanLoop, hr2, stepE, scanStep, gridVal, recordRoot, _equation,
      List.getD]
  exact ⟨hsc, scan_root_provenance (fun x => some x) (fun _ => some 2)
    (fun _ _ _ _ => none) (0, 4) 3 (1/2) [(2, 2)] hsc⟩

/-- Claim C3 counterexample: the difference is exactly zero at grid point
0 and no root has been accepted yet, so the deduplication check would
trivially pass; but the value at the next grid point 1 is undefined, so
the pair is discarded by the nan check of line 57 before the direct-hit
test runs, and the exact zero is never recorded: the result is empty. -/
theorem scan_direct_hit_counterexample :
    _equation (fun x => if x = 1 then none else some 0) (fun _ => some 0) 0
      = some 0 ∧
    find_intersections_by_scan (fun x => if x = 1 then none else some 0)
      (fun _ => some 0) (fun _ _ _ _ => none) (0, 1) 2 1 = .ok [] := by
  have hr2 : List.range 2 = [0, 1] := rfl
  have hr1 : List.range 1 = [0] := rfl
  have hg : linspace 0 1 2 = [0, 1] := by norm_num [linspace, hr2]
  constructor
  · norm_num [_equation]
  · simp only [find_intersections_by_scan, hg]
    norm_num [scanLoop, hr1, stepE, scanStep, gridVal, recordRoot, _equation,
      List.getD]

/-- Claim C3 amended: an exact zero of the difference at grid[i] is
recorded into the result list subject to the deduplication check AND to
the value at grid[i+1] being defined: when both hold, the loop iteration
appends (grid[i], f1 grid[i]); the counterexample shows the zero is lost
when the next grid value is undefined. -/
theorem scan_direct_hit_recorded (f1 f2 : RFun) (bq : BrentQ) (tol : ℚ)
    (grid : List ℚ) (acc : List (ℚ × ℚ)) (i : ℕ) (v1 : ℚ)
    (h0 : gridVal f1 f2 grid i = some 0)
    (h1 : gridVal f1 f2 grid (i + 1) = some v1)
    (hd : ∀ p ∈ acc, ¬ |grid.getD i 0 - p.1| < tol) :
    ∃ y, f1 (grid.getD i 0) = some y ∧
      scanStep f1 f2 bq tol grid acc i
        = .ok (acc ++ [(grid.getD i 0, y)]) := by
  obtain ⟨_, heq⟩ := gridVal_some h0
  obtain ⟨y1, y2, hf1, hf2, hy⟩ := _equation_some heq
  refine ⟨y1, hf1, ?_⟩
  have hdup : ¬ ∃ p ∈ acc, |grid.getD i 0 - p.1| < tol := by
    push_neg
    intro p hp
    exact not_lt.mp (hd p hp)
  simp only [scanStep, h0, h1, recordRoot, if_neg hdup, hf1,
    eq_self_iff_true, if_true]

/-- Concrete run of scan_direct_hit_recorded: both functions constantly 0,
grid [0, 1], no accepted roots yet; the direct hit at grid point 0 is
appended. -/
theorem scan_direct_hit_recorded_witness :
    scanStep (fun _ => some 0) (fun _ => some 0) (fun _ _ _ _ => none) 1
      ([0, 1] : List ℚ) [] 0 = .ok [(0, 0)] := by
  obtain ⟨y, hy, hstep⟩ := scan_direct_hit_recorded (fun _ => some 0)
    (fun _ => some 0) (fun _ _ _ _ => none) 1 [0, 1] [] 0 (0 - 0)
    (by norm_num [gridVal, _equation]) rfl (by simp)
  have hy0 : y = 0 := (Option.some.inj hy).symm
  subst hy0
  exact hstep

/-- Claim C10: the adjacent-pair loop tests f_values[i] == 0 only for i up
to num_points - 2, so an exact zero of the difference at the last grid
point is never treated as a direct hit: when the difference is defined
and of one strict sign at all earlier grid points and exactly zero at the
last one, the scan returns the empty list. -/
theorem scan_last_zero_not_reported (f1 f2 : RFun) (bq : BrentQ)
    (d : ℚ × ℚ) (n : ℕ) (tol : ℚ)
    (hdef : ∀ i, i + 1 < n →
      ∃ v, gridVal f1 f2 (linspace d.1 d.2 n) i = some v)
    (hsign : (∀ i v, i + 1 < n →
        gridVal f1 f2 (linspace d.1 d.2 n) i = some v → 0 < v) ∨
      (∀ i v, i + 1 < n →
        gridVal f1 f2 (linspace d.1 d.2 n) i = some v → v < 0))
    (hlast : gridVal f1 f2 (linspace d.1 d.2 n) (n - 1) = some 0) :
    find_intersections_by_scan f1 f2 bq d n tol = .ok [] := by
  simp only [find_intersections_by_scan]
  show scanLoop f1 f2 bq tol (linspace d.1 d.2 n)
    ((linspace d.1 d.2 n).length - 1) = .ok []
  rw [linspace_length]
  suffices hs : ∀ k, k ≤ n - 1 →
      scanLoop f1 f2 bq tol (linspace d.1 d.2 n) k = .ok [] by
    exact hs (n - 1) le_rfl
  intro k
  induction k with
  | zero => intro _; rfl
  | succ k ih =>
    intro hk
    rw [scanLoop_succ, ih (by omega)]
    show scanStep f1 f2 bq tol (linspace d.1 d.2 n) [] k = .ok []
    have hkn : k + 1 < n := by omega
    obtain ⟨vk, hvk⟩ := hdef k hkn
    have hvknz : vk ≠ 0 := by
      rcases hsign with hpos | hneg
      · exact (hpos k vk hkn hvk).ne'
      · exact (hneg k vk hkn hvk).ne
    by_cases hk1 : k + 1 + 1 < n
    · obtain ⟨vk1, hvk1⟩ := hdef (k + 1) hk1
      refine scanStep_skip_of_no_cross hvk hvk1 hvknz ?_
      rcases hsign with hpos | hneg
      · exact not_lt.mpr (le_of_lt
          (mul_pos (hpos k vk hkn hvk) (hpos (k + 1) vk1 hk1 hvk1)))
      · exact not_lt.mpr (le_of_lt
          (mul_pos_of_neg_of_neg (hneg k vk hkn hvk)
            (hneg (k + 1) vk1 hk1 hvk1)))
    · have hke : k + 1 = n - 1 := by omega
      refine scanStep_skip_of_no_cross hvk (by rw [hke]; exact hlast)
        hvknz ?_
      rw [mul_zero]
      exact lt_irrefl 0

/-- Concrete run of scan_last_zero_not_reported: difference 1 - x over
[0, 1] with 3 points is positive at grid points 0 and 1/2 and exactly
zero at the last grid point 1, yet the scan reports nothing. -/
theorem scan_last_zero_not_reported_witness :
    gridVal (fun x => some (1 - x)) (fun _ => some 0) (linspace 0 1 3) 2
      = some 0 ∧
    find_intersections_by_scan (fun x => some (1 - x)) (fun _ => some 0)
      (fun _ _ _ _ => none) (0, 1) 3 1 = .ok [] := by
  have hr3 : List.range 3 = [0, 1, 2] := rfl
  have hg : linspace 0 1 3 = [0, 1/2, 1] := by norm_num [linspace, hr3]
  have hv0 : gridVal (fun x => some (1 - x)) (fun _ => some 0)
      (linspace 0 1 3) 0 = some (1 - 0 - 0) := by rw [hg]; rfl
  have hv1 : gridVal (fun x => some (1 - x)) (fun _ => some 0)
      (linspace 0 1 3) 1 = some (1 - 1/2 - 0) := by rw [hg]; rfl
  have hv2 : gridVal (fun x => some (1 - x)) (fun _ => some 0)
      (linspace 0 1 3) 2 = some 0 := by
    rw [hg]
    have h2 : gridVal (fun x => some (1 - x)) (fun _ => some 0)
        ([0, 1/2, 1] : List ℚ) 2 = some (1 - 1 - 0) := rfl
    rw [h2]
    norm_num
  refine ⟨hv2, ?_⟩
  refine scan_last_zero_not_reported (fun x => some (1 - x))
    (fun _ => some 0) (fun _ _ _ _ => none) (0, 1) 3 1 ?_ ?_ hv2
  · intro i hi
    have hi2 : i < 2 := by omega
    interval_cases i
    · exact ⟨1 - 0 - 0, hv0⟩
    · exact ⟨1 - 1/2 - 0, hv1⟩
  · left
    intro i v hi hv
    have hi2 : i < 2 := by omega
    interval_cases i
    · have hveq := Option.some.inj (hv0.symm.trans hv)
      rw [← hveq]
      norm_num
    · have hveq := Option.some.inj (hv1.symm.trans hv)
      rw [← hveq]
      norm_num

/-- Claim C7 counterexample: nothing stops a caller passing a decreasing
domain, and the scan then walks the grid from high to low x.  With the
difference x^2 - 1 over the domain (2, -2) and 5 points, the direct hits
at grid points 1 and -1 are returned in the order [(1, 1), (-1, 1)],
which is not sorted in increasing x. -/
theorem scan_sorted_counterexample :
    find_intersections_by_scan (fun x => some (x ^ 2)) (fun _ => some 1)
      (fun _ _ _ _ => none) (2, -2) 5 1 = .ok [(1, 1), (-1, 1)] ∧
    ¬ ([((1 : ℚ), (1 : ℚ)), (-1, 1)].Pairwise
      (fun p q => p.1 < q.1)) := by
  have hr5 : List.range 5 = [0, 1, 2, 3, 4] := rfl
  have hr4 : List.range 4 = [0, 1, 2, 3] := rfl
  have hg : linspace 2 (-2) 5 = [2, 1, 0, -1, -2] := by
    norm_num [linspace, hr5]
  constructor
  · simp only [find_intersections_by_scan, hg]
    norm_num [scanLoop, hr4, stepE, scanStep, gridVal, recordRoot, _equation,
      List.getD, abs_sub_comm]
  · simp only [List.pairwise_cons, List.mem_cons, List.mem_singleton]
    push_neg
    intro hbad
    have := hbad (-1, 1) (Or.inl rfl)
    norm_num at this

/-- Claim C7 amended: for an increasing domain (xmin ≤ xmax), a positive
tol, and a bracketing solver that returns points inside any bracket
[a, b] with a ≤ b it is handed (the brentq contract), every ok result is
sorted in strictly increasing x order.  For a decreasing domain the claim
fails (see the counterexample). -/
theorem scan_sorted_of_increasing_domain (f1 f2 : RFun) (bq : BrentQ)
    (d : ℚ × ℚ) (n : ℕ) (tol : ℚ) (l : List (ℚ × ℚ))
    (hd : d.1 ≤ d.2) (htol : 0 < tol)
    (hbq : ∀ g a b t x, a ≤ b → bq g a b t = some x → a ≤ x ∧ x ≤ b)
    (h : find_intersections_by_scan f1 f2 bq d n tol = .ok l) :
    l.Pairwise (fun p q => p.1 < q.1) := by
  simp only [find_intersections_by_scan] at h
  have hstep : ∀ k acc l', k < (linspace d.1 d.2 n).length - 1 →
      (acc.Pairwise (fun p q => p.1 < q.1) ∧
        ∀ p ∈ acc, p.1 ≤ (linspace d.1 d.2 n).getD k 0) →
      scanStep f1 f2 bq tol (linspace d.1 d.2 n) acc k = .ok l' →
      (l'.Pairwise (fun p q => p.1 < q.1) ∧
        ∀ p ∈ l', p.1 ≤ (linspace d.1 d.2 n).getD (k + 1) 0) := by
    intro k acc l' hk hp hs
    rw [linspace_length] at hk
    have hkn : k + 1 < n := by omega
    have hmono : (linspace d.1 d.2 n).getD k 0 ≤
        (linspace d.1 d.2 n).getD (k + 1) 0 :=
      linspace_getD_mono hd (Nat.le_succ k) hkn
    rcases scanStep_ok_cases hs with hl | ⟨x, y, hl, hf, hsep, hlen, hcase⟩
    · subst hl
      exact ⟨hp.1, fun p hpm => le_trans (hp.2 p hpm) hmono⟩
    · subst hl
      have hbounds : (linspace d.1 d.2 n).getD k 0 ≤ x ∧
          x ≤ (linspace d.1 d.2 n).getD (k + 1) 0 := by
        rcases hcase with ⟨_, hx⟩ | ⟨vi, vi1, _, _, _, _, hbqx⟩
        · subst hx
          exact ⟨le_refl _, hmono⟩
        · exact hbq _ _ _ _ _ hmono hbqx
      constructor
      · rw [List.pairwise_append]
        refine ⟨hp.1, List.pairwise_singleton _ _, ?_⟩
        intro p hpm q hq
        rw [List.mem_singleton] at hq
        subst hq
        have hle : p.1 ≤ x := le_trans (hp.2 p hpm) hbounds.1
        have hne : x ≠ p.1 := by
          have habs : 0 < |x - p.1| := lt_of_lt_of_le htol (hsep p hpm)
          intro he
          rw [he, sub_self, abs_zero] at habs
          exact lt_irrefl 0 habs
        exact lt_of_le_of_ne hle (fun he => hne he.symm)
      · intro p hpm
        rcases List.mem_append.mp hpm with hin | hnew
        · exact le_trans (hp.2 p hin) hmono
        · rw [List.mem_singleton] at hnew
          subst hnew
          exact hbounds.2
  exact (scanLoop_inv ((linspace d.1 d.2 n).length - 1)
    (fun k acc => acc.Pairwise (fun p q => p.1 < q.1) ∧
      ∀ p ∈ acc, p.1 ≤ (linspace d.1 d.2 n).getD k 0)
    ⟨List.Pairwise.nil, by simp⟩ hstep
    ((linspace d.1 d.2 n).length - 1) le_rfl l h).1

/-- Concrete run of scan_sorted_of_increasing_domain: the line x against
the constant 1 over the increasing domain (0, 2) with 2 points, with a
midpoint-returning solver (which respects brackets); the single returned
pair keeps the list trivially sorted. -/
theorem scan_sorted_of_increasing_domain_witness :
    find_intersections_by_scan (fun x => some x) (fun _ => some 1)
        (fun _ a b _ => some ((a + b) / 2)) (0, 2) 2 (1/2) = .ok [(1, 1)] ∧
    [((1 : ℚ), (1 : ℚ))].Pairwise (fun p q => p.1 < q.1) := by
  have hr2 : List.range 2 = [0, 1] := rfl
  have hr1 : List.range 1 = [0] := rfl
  have hg : linspace 0 2 2 = [0, 2] := by norm_num [linspace, hr2]
  have hsc : find_intersections_by_scan (fun x => some x) (fun _ => some 1)
      (fun _ a b _ => some ((a + b) / 2)) (0, 2) 2 (1/2) = .ok [(1, 1)] := by
    simp only [find_intersections_by_scan, hg]
    norm_num [scanLoop, hr1, stepE, scanStep, gridVal, recordRoot, _equation,
      List.getD]
  refine ⟨hsc, ?_⟩
  refine scan_sorted_of_increasing_domain (fun x => some x) (fun _ => some 1)
    (fun _ a b _ => some ((a + b) / 2)) (0, 2) 2 (1/2) [(1, 1)]
    (by norm_num) (by norm_num) ?_ hsc
  intro g a b t x hab hx
  have hx2 := Option.some.inj hx
  constructor <;> [rw [← hx2]; rw [← hx2]] <;> linarith

/-- Claim C9 (spec-modelled): the guess-and-converge operation refines
each guess with the local solver, accepts the candidate only after
verifying that the recomputed residual is below tol, lets a failed guess
contribute nothing, and keeps processing the remaining guesses. -/
theorem converge_verifies_roots (f1 f2 : RFun) (solver : LocalSolver)
    (guesses : List ℚ) (tol : ℚ) :
    (∀ p ∈ converge f1 f2 solver guesses tol,
      ∃ y1 y2, f1 p.1 = some y1 ∧ f2 p.1 = some y2 ∧ |y1 - y2| < tol ∧
        p.2 = y1) ∧
    (∀ acc g, solver (_equation f1 f2) g tol = none →
      convergeStep f1 f2 solver tol acc g = acc) ∧
    (∀ g gs, solver (_equation f1 f2) g tol = none →
      converge f1 f2 solver (g :: gs) tol = converge f1 f2 solver gs tol)
    := by
  have hskip : ∀ acc g, solver (_equation f1 f2) g tol = none →
      convergeStep f1 f2 solver tol acc g = acc := by
    intro acc g hs
    simp only [convergeStep, hs]
  have hpres : ∀ acc g,
      (∀ p ∈ acc, ∃ y1 y2, f1 p.1 = some y1 ∧ f2 p.1 = some y2 ∧
        |y1 - y2| < tol ∧ p.2 = y1) →
      ∀ p ∈ convergeStep f1 f2 solver tol acc g,
        ∃ y1 y2, f1 p.1 = some y1 ∧ f2 p.1 = some y2 ∧
          |y1 - y2| < tol ∧ p.2 = y1 := by
    intro acc g hacc p hp
    unfold convergeStep at hp
    split at hp
    · exact hacc p hp
    · rename_i x hx
      split at hp
      · rename_i y1 y2 hy1 hy2
        split at hp
        · rename_i hres
          split at hp
          · exact hacc p hp
          · rcases List.mem_append.mp hp with hin | hnew
            · exact hacc p hin
            · rw [List.mem_singleton] at hnew
              subst hnew
              exact ⟨y1, y2, hy1, hy2, hres, rfl⟩
        · exact hacc p hp
      · exact hacc p hp
  have hmain : ∀ (gs : List ℚ) (acc : List (ℚ × ℚ)),
      (∀ p ∈ acc, ∃ y1 y2, f1 p.1 = some y1 ∧ f2 p.1 = some y2 ∧
        |y1 - y2| < tol ∧ p.2 = y1) →
      ∀ p ∈ gs.foldl (convergeStep f1 f2 solver tol) acc,
        ∃ y1 y2, f1 p.1 = some y1 ∧ f2 p.1 = some y2 ∧
          |y1 - y2| < tol ∧ p.2 = y1 := by
    intro gs
    induction gs with
    | nil =>
      intro acc hacc
      simpa using hacc
    | cons g gs ih =>
      intro acc hacc
      rw [List.foldl_cons]
      exact ih _ (hpres acc g hacc)
  refine ⟨hmain guesses [] (by simp), hskip, ?_⟩
  intro g gs hs
  unfold converge
  rw [List.foldl_cons, hskip [] g hs]

/-- Concrete run of converge_verifies_roots: the trivial solver that
returns its guess, the line x against the constant 1, guesses [1, 5] with
tol = 1/2.  The guess 1 verifies (residual 0), the guess 5 fails the
residual check and contributes nothing. -/
theorem converge_verifies_roots_witness :
    converge (fun x => some x) (fun _ => some 1) (fun _ g _ => some g)
        [1, 5] (1/2) = [(1, 1)] ∧
    ∀ p ∈ [((1 : ℚ), (1 : ℚ))],
      ∃ y1 y2, (fun x : ℚ => some x) p.1 = some y1 ∧
        (fun _ : ℚ => some (1 : ℚ)) p.1 = some y2 ∧ |y1 - y2| < 1/2 ∧
        p.2 = y1 := by
  have ha : |(5 : ℚ) - 1| = 4 := by
    rw [abs_of_nonneg] <;> norm_num
  have hc : converge (fun x => some x) (fun _ => some 1)
      (fun _ g _ => some g) [1, 5] (1/2) = [(1, 1)] := by
    norm_num [converge, convergeStep, _equation, ha]
  refine ⟨hc, ?_⟩
  have h := (converge_verifies_roots (fun x => some x) (fun _ => some 1)
    (fun _ g _ => some g) [1, 5] (1/2)).1
  rw [hc] at h
  exact h

end Intersection
